import Mathlib

/-!
Verification of the chrome-takeout-to-firefox history import engine.

The development shallowly embeds the two source files of the repository:

* src/hash.rs — the Firefox-compatible URL hash (functions hash and
  hash_simple, constant GOLDEN_RATIO);
* src/main.rs — the import pipeline (insert_visit, find_or_insert_place,
  find_or_insert_origin, generate_guid, and the driver loop in main).

Machine integers are modelled as natural numbers with explicit reduction
modulo 2^32 where the Rust code uses wrapping 32-bit arithmetic.  The
SQLite tables moz_origins, moz_places and moz_historyvisits are modelled
as lists of rows inside a Db state; SQL statements become pure functions
on that state.  Rust Result values become Except, and a Rust panic (the
expect call in find_or_insert_place) is kept distinct from a recoverable
anyhow error, because the driver only catches the latter.
-/

/-! ## UTF-8 byte encoding of strings

Rust strings are UTF-8 encoded; hash.rs iterates over the raw bytes
(text.bytes()) and indexes by byte offset (url.find returns a byte
index).  We model the byte encoding explicitly. -/

/-- UTF-8 encoding of a single character (Unicode scalar value), as the
list of its byte values. -/
def charBytes (c : Char) : List Nat :=
  let n := c.toNat
  if n < 0x80 then [n]
  else if n < 0x800 then [0xC0 + n / 64, 0x80 + n % 64]
  else if n < 0x10000 then [0xE0 + n / 4096, 0x80 + n / 64 % 64, 0x80 + n % 64]
  else [0xF0 + n / 262144, 0x80 + n / 4096 % 64, 0x80 + n / 64 % 64, 0x80 + n % 64]

/-- UTF-8 bytes of a list of characters. -/
def listBytes : List Char → List Nat
  | [] => []
  | c :: cs => charBytes c ++ listBytes cs

/-- UTF-8 bytes of a string (the Rust str raw byte encoding). -/
def strBytes (s : String) : List Nat := listBytes s.data

/-! ## src/hash.rs

The Rust module is called hash; we embed it inside a namespace of the
same (capitalized) name so that the function hash keeps its source name
without clashing with the Hashable class. -/

namespace Hash

/-- The constant GOLDEN_RATIO from src/hash.rs. -/
def goldenConst : Nat := 0x9E3779B9

/-- Rotate left by 5 on 32 bits (Rust u32 rotate_left applied at 5),
for an accumulator below 2^32. -/
def rotl5 (h : Nat) : Nat := ((h <<< 5) % 2 ^ 32) ||| (h >>> 27)

/-- One step of the hash_simple loop from src/hash.rs:
wrapping 32-bit multiplication of GOLDEN_RATIO with (rotl5 of the
accumulator XOR the byte). -/
def hashStep (h b : Nat) : Nat := goldenConst * (rotl5 h ^^^ b) % 2 ^ 32

/-- Folds the hash over a byte list, starting from 0 (the loop body of
hash_simple in src/hash.rs). -/
def hashBytes (l : List Nat) : Nat := l.foldl hashStep 0

/-- hash_simple from src/hash.rs: starts at 0 and folds every raw byte
of the text; the 32-bit accumulator is returned (zero-extended, which is
the identity on Nat). -/
def hash_simple (s : String) : Nat := hashBytes (strBytes s)

/-- Byte index of the first colon byte (58) in a byte list; models the
Rust call url.find applied at the colon character, which returns the
byte offset of its first occurrence. -/
def byteIdxOfColon : List Nat → Option Nat
  | [] => none
  | b :: rest => if b = 58 then some 0 else (byteIdxOfColon rest).map (· + 1)

/-- hash from src/hash.rs: finds the first colon (the protocol
separator), errors when absent, and otherwise combines hash_simple of
the byte prefix before the colon with hash_simple of the whole URL. -/
def hash (s : String) : Except String Nat :=
  match byteIdxOfColon (strBytes s) with
  | none => Except.error "URL is missing the protocol."
  | some i =>
    Except.ok (((hashBytes ((strBytes s).take i) &&& 0x0000FFFF) <<< 32) + hash_simple s)

end Hash

open Hash (goldenConst rotl5 hashStep hashBytes hash_simple byteIdxOfColon)

/-! ## src/main.rs: data model -/

/-- A parsed URL, as the import pipeline observes it through the url
crate: its canonical serialization (as_ref), its host string when one
exists (host_str), and its origin when it is a scheme/host/port tuple
(origin gives Tuple with the scheme, the host rendered as a string, and
the port or the scheme's known default port); originTuple is none when
the origin is opaque. -/
structure Url where
  serialization : String
  hostStr : Option String
  originTuple : Option (String × String × Nat)
deriving DecidableEq

/-- A row of moz_origins as written or read by the engine. -/
structure OriginRow where
  id : Nat
  pfx : String
  host : String
  frecency : Int
  recalcFrecency : Nat
  altFrecency : Option Int
  recalcAltFrecency : Nat
deriving DecidableEq

/-- A row of moz_places as written or read by the engine. -/
structure PlaceRow where
  id : Nat
  url : String
  title : Option String
  revHost : String
  visitCount : Nat
  lastVisitDate : Option Nat
  guid : String
  urlHash : Nat
  originId : Nat
  recalcFrecency : Nat
  altFrecency : Int
  recalcAltFrecency : Nat
deriving DecidableEq

/-- A row of moz_historyvisits as written by the engine. -/
structure VisitRow where
  fromVisit : Nat
  placeId : Nat
  visitDate : Nat
  visitType : Nat
  session : Nat
  source : Nat
  triggeringPlaceId : Option Nat
deriving DecidableEq

/-- The destination database state: the three tables touched by the
engine, the next rowids SQLite would assign, and the stream of GUIDs the
random generator will produce (generate_guid draws from a process-wide
RNG; we model that capability as a pool of pre-drawn identifiers so that
the engine stays a pure function). -/
structure Db where
  origins : List OriginRow
  places : List PlaceRow
  visits : List VisitRow
  nextOriginId : Nat
  nextPlaceId : Nat
  guidPool : List String
deriving DecidableEq

/-- Equality of Except results is decidable when both components are;
used to evaluate the pipeline on concrete inputs. -/
instance {e a : Type} [DecidableEq e] [DecidableEq a] : DecidableEq (Except e a) :=
  fun x y =>
    match x, y with
    | Except.ok v1, Except.ok v2 =>
      match decEq v1 v2 with
      | isTrue h => isTrue (by rw [h])
      | isFalse h => isFalse (by intro hc; injection hc; exact h (by assumption))
    | Except.error e1, Except.error e2 =>
      match decEq e1 e2 with
      | isTrue h => isTrue (by rw [h])
      | isFalse h => isFalse (by intro hc; injection hc; exact h (by assumption))
    | Except.ok _, Except.error _ => isFalse (by intro hc; cases hc)
    | Except.error _, Except.ok _ => isFalse (by intro hc; cases hc)

/-- A failure while processing one entry.  err is an anyhow error
returned as a Result (caught by the driver); fatal is a Rust panic (the
expect call on host_str), which unwinds and aborts the process. -/
inductive Failure where
  | err (msg : String)
  | fatal (msg : String)
deriving DecidableEq

/-- One record of the Chrome takeout file (ChromeTakeoutEntry in
src/main.rs). -/
structure Entry where
  title : String
  url : Url
  timeUsec : Nat
deriving DecidableEq

/-! ## src/main.rs: operations -/

/-- The (prefix, host) origin key computed by the match in
find_or_insert_origin (src/main.rs lines 210-219), given the components
of a tuple origin.  Arm order follows the source: https with port 443,
https, http with port 80, http, then the catch-all folding the port into
the host. -/
def origin_key (scheme host : String) (port : Nat) : String × String :=
  if scheme = "https" then
    if port = 443 then ("https://", host)
    else ("https://", host ++ ":" ++ toString port)
  else if scheme = "http" then
    if port = 80 then ("http://", host)
    else ("http://", host ++ ":" ++ toString port)
  else (scheme ++ "://", host ++ ":" ++ toString port)

/-- The SELECT of find_or_insert_origin: first moz_origins row whose
host and prefix both match. -/
def origin_lookup (key : String × String) (db : Db) : Option OriginRow :=
  db.origins.find? (fun o => o.host = key.2 ∧ o.pfx = key.1)

/-- The row written by the INSERT of find_or_insert_origin: frecency 0,
recalc_frecency 1, alt_frecency NULL, recalc_alt_frecency 1. -/
def newOriginRow (id : Nat) (key : String × String) : OriginRow :=
  { id := id, pfx := key.1, host := key.2, frecency := 0, recalcFrecency := 1,
    altFrecency := none, recalcAltFrecency := 1 }

/-- find_or_insert_origin from src/main.rs: bails out on an opaque
origin, computes the (prefix, host) key, looks up moz_origins by host
and prefix, and otherwise inserts a new row, returning the fresh id. -/
def find_or_insert_origin (u : Url) (db : Db) : Except Failure (Nat × Db) :=
  match u.originTuple with
  | none => Except.error (Failure.err "Opaque URLs are not supported.")
  | some (scheme, host, port) =>
    let key := origin_key scheme host port
    match origin_lookup key db with
    | some o => Except.ok (o.id, db)
    | none =>
      Except.ok (db.nextOriginId,
        { db with
            origins := db.origins ++ [newOriginRow db.nextOriginId key],
            nextOriginId := db.nextOriginId + 1 })

/-- find_or_insert_place from src/main.rs: looks up moz_places by exact
URL serialization and returns the existing id when found.  Otherwise it
reverses the host characters and appends a dot (panicking — a fatal
failure — when the URL has no host), draws a guid, computes the url
hash (which can fail), resolves the origin (which can fail on opaque
origins), and inserts the new place row.  The insert statement lists no
visit_count column, so the row gets the schema default 0, and
last_visit_date is written as NULL; recalc_frecency is set to 1,
alt_frecency to 0 and recalc_alt_frecency to 1. -/
def place_lookup (u : Url) (db : Db) : Option PlaceRow :=
  db.places.find? (fun r => r.url = u.serialization)

/-- The rev_host computation of find_or_insert_place: the host string
reversed character by character with a dot appended. -/
def revHostOf (h : String) : String := String.mk (h.data.reverse ++ ['.'])

/-- The row written by the INSERT of find_or_insert_place.  The INSERT
lists no visit_count column so the row receives the moz_places schema
default 0; last_visit_date is written as NULL, recalc_frecency as 1,
alt_frecency as 0 and recalc_alt_frecency as 1. -/
def newPlaceRow (id : Nat) (u : Url) (title : Option String) (rev_host guid : String)
    (url_hash origin_id : Nat) : PlaceRow :=
  { id := id, url := u.serialization, title := title, revHost := rev_host,
    visitCount := 0, lastVisitDate := none, guid := guid, urlHash := url_hash,
    originId := origin_id, recalcFrecency := 1, altFrecency := 0,
    recalcAltFrecency := 1 }

def find_or_insert_place (u : Url) (title : Option String) (db : Db) :
    Except Failure (Nat × Db) :=
  match place_lookup u db with
  | some r => Except.ok (r.id, db)
  | none =>
    match u.hostStr with
    | none => Except.error (Failure.fatal "URL must have a host.")
    | some h =>
      let rev_host := revHostOf h
      let guid := db.guidPool.headD ""
      let db1 := { db with guidPool := db.guidPool.tail }
      match Hash.hash u.serialization with
      | Except.error e => Except.error (Failure.err e)
      | Except.ok url_hash =>
        match find_or_insert_origin u db1 with
        | Except.error f => Except.error f
        | Except.ok (origin_id, db2) =>
          Except.ok (db2.nextPlaceId,
            { db2 with
                places := db2.places ++
                  [newPlaceRow db2.nextPlaceId u title rev_host guid url_hash origin_id],
                nextPlaceId := db2.nextPlaceId + 1 })

/-- The aggregate update applied to the visited place row by the UPDATE
statement in insert_visit (src/main.rs lines 121-131). -/
def bumpPlace (place : Nat) (time : Nat) (r : PlaceRow) : PlaceRow :=
  if r.id = place then
    { r with
        visitCount := r.visitCount + 1,
        lastVisitDate := some (Nat.max (r.lastVisitDate.getD 0) time),
        recalcFrecency := 1 }
  else r

/-- The SELECT EXISTS duplicate probe of insert_visit: does any
moz_historyvisits row already carry this visit_date. -/
def visit_exists (time : Nat) (db : Db) : Bool :=
  db.visits.any (fun v => v.visitDate = time)

/-- The row written by the INSERT of insert_visit: from_visit 0,
visit_type 1, session 0, source 0, NULL triggeringPlaceId. -/
def newVisitRow (place time : Nat) : VisitRow :=
  { fromVisit := 0, placeId := place, visitDate := time, visitType := 1,
    session := 0, source := 0, triggeringPlaceId := none }

/-- insert_visit from src/main.rs: if any moz_historyvisits row already
has this visit_date, the entry is skipped (logged, successful).
Otherwise the place is found or created, its aggregates are bumped, and
one visit row is appended. -/
def insert_visit (u : Url) (title : Option String) (time : Nat) (db : Db) :
    Except Failure Db :=
  if visit_exists time db then
    Except.ok db
  else
    match find_or_insert_place u title db with
    | Except.error f => Except.error f
    | Except.ok (place, db1) =>
      Except.ok
        { db1 with
            places := db1.places.map (bumpPlace place time),
            visits := db1.visits ++ [newVisitRow place time] }

/-- The title derivation in the driver loop (src/main.rs lines 28-32):
an empty title becomes None, any other title is passed through. -/
def titleOf (e : Entry) : Option String :=
  if e.title = "" then none else some e.title

/-- One iteration of the driver loop body (src/main.rs lines 27-41): the
title is derived, insert_visit is called, and an error result is caught
and logged so that processing continues with the state unchanged.  A
Rust panic (fatal failure) is not a Result and unwinds instead. -/
def processEntry (e : Entry) (db : Db) : Except String Db :=
  match insert_visit e.url (titleOf e) e.timeUsec db with
  | Except.ok db1 => Except.ok db1
  | Except.error (Failure.err _) => Except.ok db
  | Except.error (Failure.fatal m) => Except.error m

/-- Processing of the entries of one batch, in order (the inner for
loop of main). -/
def runChunk : List Entry → Db → Except String Db
  | [], db => Except.ok db
  | e :: rest, db =>
    match processEntry e db with
    | Except.ok db1 => runChunk rest db1
    | Except.error m => Except.error m

/-- Outcome of a whole import run: either the run finished, or a panic
aborted it; in the aborted case the recorded state is the last committed
one, because the open transaction of the failing batch is rolled back
when it is dropped during unwinding. -/
inductive RunResult where
  | finished (db : Db)
  | aborted (msg : String) (db : Db)
deriving DecidableEq

/-- The batch loop of main, over the entry list: main iterates
takeout.history.chunks applied at 1000, opening a transaction per chunk
and committing it after the chunk.  We model the same nested loop by
one pass over the entries with a capacity counter: cap is the number of
entries that may still be processed before the next batch boundary,
committed is the state at the last commit, and cur is the live
transaction state.  When cap runs out the batch is committed (committed
becomes cur) and a fresh batch of 1000 starts.  A panic aborts the run
and loses the open batch, falling back to the committed state; the end
of the list commits the final partial batch. -/
def runBatches : List Entry → Nat → Db → Db → RunResult
  | [], _, _, cur => RunResult.finished cur
  | e :: rest, Nat.succ cap, committed, cur =>
    match processEntry e cur with
    | Except.ok db1 => runBatches rest cap committed db1
    | Except.error m => RunResult.aborted m committed
  | e :: rest, 0, _, cur =>
    match processEntry e cur with
    | Except.ok db1 => runBatches rest 999 cur db1
    | Except.error m => RunResult.aborted m cur

/-- The whole import pipeline of main over an already decoded entry
list: batches of 1000, each one transaction. -/
def runImport (entries : List Entry) (db : Db) : RunResult :=
  runBatches entries 1000 db db

/-! ## Derived predicates used in the statements -/

/-- The visit_date column of moz_historyvisits, as a list. -/
def visitDates (db : Db) : List Nat := db.visits.map (fun v => v.visitDate)

/-- Some visit row already carries this timestamp. -/
abbrev hasVisitAt (db : Db) (time : Nat) : Prop := ∃ v ∈ db.visits, v.visitDate = time

/-- Some place row carries exactly this URL string. -/
abbrev hasPlaceUrl (db : Db) (U : String) : Prop := ∃ r ∈ db.places, r.url = U

/-- A URL on which place creation always fails with a recoverable error:
it has a host (so the rev_host computation does not panic), but either
its serialization has no colon (the hasher fails) or its origin is
opaque (the origin resolver bails out). -/
def badUrl (u : Url) : Prop :=
  (∃ h, u.hostStr = some h) ∧
  ((∃ e, Hash.hash u.serialization = Except.error e) ∨ u.originTuple = none)

/-- Well-formedness of the id columns, as SQLite guarantees them for
rowid tables: every id is below the next free rowid and ids are unique
within each table. -/
abbrev WfIds (db : Db) : Prop :=
  (∀ r ∈ db.places, r.id < db.nextPlaceId) ∧
  (db.places.map (fun r => r.id)).Nodup ∧
  (∀ o ∈ db.origins, o.id < db.nextOriginId) ∧
  (db.origins.map (fun o => o.id)).Nodup

/-! ## Concrete fixtures

Example URLs (with the host and origin data the url crate would expose
for them) and database states, used to evaluate the verified operations
at concrete inputs. -/

def exUrl : Url :=
  { serialization := "https://example.com/", hostStr := some "example.com",
    originTuple := some ("https", "example.com", 443) }

def exUrlA : Url :=
  { serialization := "https://example.com/a", hostStr := some "example.com",
    originTuple := some ("https", "example.com", 443) }

def exUrlASlash : Url :=
  { serialization := "https://example.com/a/", hostStr := some "example.com",
    originTuple := some ("https", "example.com", 443) }

def exUrl8443 : Url :=
  { serialization := "https://example.com:8443/", hostStr := some "example.com",
    originTuple := some ("https", "example.com", 8443) }

/-- A URL whose origin is opaque (the url crate yields an opaque origin
for file URLs); its host string is the empty string. -/
def exUrlOpaque : Url :=
  { serialization := "file:///tmp/x", hostStr := some "", originTuple := none }

/-- A URL without a host, as the url crate parses about:blank. -/
def exUrlNoHost : Url :=
  { serialization := "about:blank", hostStr := none, originTuple := none }

def exDb : Db :=
  { origins := [], places := [], visits := [], nextOriginId := 1, nextPlaceId := 1,
    guidPool := ["guidA", "guidB", "guidC"] }

/-- A database that already holds one visit at timestamp 100 for place
id 7, and nothing else. -/
def exDbVisited : Db :=
  { origins := [], places := [],
    visits := [{ fromVisit := 0, placeId := 7, visitDate := 100, visitType := 1,
                 session := 0, source := 0, triggeringPlaceId := none }],
    nextOriginId := 1, nextPlaceId := 1, guidPool := ["guidA"] }

/-- The database state after resolving the origin of exUrl against
exDb: one https origin row with id 1. -/
def exDbO1 : Db :=
  { origins := [newOriginRow 1 ("https://", "example.com")], places := [], visits := [],
    nextOriginId := 2, nextPlaceId := 1, guidPool := ["guidA", "guidB", "guidC"] }

/-- The database state after additionally resolving the origin of
exUrl8443: a second, distinct origin row with id 2 and the port folded
into the host. -/
def exDbO2 : Db :=
  { origins := [newOriginRow 1 ("https://", "example.com"),
                newOriginRow 2 ("https://", "example.com:8443")],
    places := [], visits := [],
    nextOriginId := 3, nextPlaceId := 1, guidPool := ["guidA", "guidB", "guidC"] }

/-- The database state after resolving the place of exUrlA against
exDb: one origin row, one place row with id 1 and the computed url hash,
guid drawn from the pool. -/
def exDbPA : Db :=
  { origins := [newOriginRow 1 ("https://", "example.com")],
    places := [newPlaceRow 1 exUrlA none (revHostOf "example.com") "guidA"
                 47356380020438 1],
    visits := [], nextOriginId := 2, nextPlaceId := 2, guidPool := ["guidB", "guidC"] }

/-- The database state after recording a visit to exUrl at timestamp 50
against exDb: place created, aggregates bumped once, one visit row. -/
def exDbV : Db :=
  { origins := [newOriginRow 1 ("https://", "example.com")],
    places := [{ id := 1, url := "https://example.com/", title := some "t",
                 revHost := revHostOf "example.com", visitCount := 1,
                 lastVisitDate := some 50, guid := "guidA",
                 urlHash := 47357371248711, originId := 1, recalcFrecency := 1,
                 altFrecency := 0, recalcAltFrecency := 1 }],
    visits := [newVisitRow 1 50],
    nextOriginId := 2, nextPlaceId := 2, guidPool := ["guidB", "guidC"] }

/-- The final state of a complete import of two fresh entries (exUrl at
timestamp 8 and exUrlA at timestamp 9) against exDb: one shared origin,
two places, two visits. -/
def exDbRun : Db :=
  { origins := [newOriginRow 1 ("https://", "example.com")],
    places := [{ id := 1, url := "https://example.com/", title := some "t",
                 revHost := revHostOf "example.com", visitCount := 1,
                 lastVisitDate := some 8, guid := "guidA",
                 urlHash := 47357371248711, originId := 1, recalcFrecency := 1,
                 altFrecency := 0, recalcAltFrecency := 1 },
               { id := 2, url := "https://example.com/a", title := some "t2",
                 revHost := revHostOf "example.com", visitCount := 1,
                 lastVisitDate := some 9, guid := "guidB",
                 urlHash := 47356380020438, originId := 1, recalcFrecency := 1,
                 altFrecency := 0, recalcAltFrecency := 1 }],
    visits := [newVisitRow 1 8, newVisitRow 2 9],
    nextOriginId := 2, nextPlaceId := 3, guidPool := ["guidC"] }

/-! ### Byte-level facts about the colon -/

theorem listBytes_append (a b : List Char) :
    listBytes (a ++ b) = listBytes a ++ listBytes b := by
  induction a with
  | nil => rfl
  | cons c cs ih => simp [listBytes, ih]

theorem charBytes_colon : charBytes ':' = [58] := by decide

theorem char_eq_colon_of_toNat {c : Char} (h : c.toNat = 58) : c = ':' := by
  have hv : c.val = (58 : UInt32) := by
    apply UInt32.ext
    simpa [Char.toNat] using h
  exact Char.ext hv

theorem mem_charBytes_iff (c : Char) : 58 ∈ charBytes c ↔ c = ':' := by
  constructor
  · intro h
    simp only [charBytes] at h
    by_cases h1 : c.toNat < 0x80
    · simp [h1] at h
      exact char_eq_colon_of_toNat h.symm
    · by_cases h2 : c.toNat < 0x800
      · simp [h1, h2, List.mem_cons] at h
        omega
      · by_cases h3 : c.toNat < 0x10000
        · simp [h1, h2, h3, List.mem_cons] at h
          omega
        · simp [h1, h2, h3, List.mem_cons] at h
          omega
  · intro h
    subst h
    simp [charBytes_colon]

theorem not_mem_charBytes (c : Char) (h : c ≠ ':') : 58 ∉ charBytes c := by
  intro hm
  exact h ((mem_charBytes_iff c).mp hm)

theorem mem58_listBytes_iff (l : List Char) : 58 ∈ listBytes l ↔ ':' ∈ l := by
  induction l with
  | nil => simp [listBytes]
  | cons c cs ih =>
    simp only [listBytes, List.mem_append, List.mem_cons, ih]
    constructor
    · rintro (h | h)
      · exact Or.inl ((mem_charBytes_iff c).mp h).symm
      · exact Or.inr h
    · rintro (h | h)
      · exact Or.inl (by simp [← h, charBytes_colon])
      · exact Or.inr h

theorem byteIdxOfColon_eq_none (l : List Nat) (h : 58 ∉ l) :
    byteIdxOfColon l = none := by
  induction l with
  | nil => rfl
  | cons b rest ih =>
    simp only [List.mem_cons, not_or] at h
    simp [byteIdxOfColon, Ne.symm h.1, h.1, ih h.2]

theorem byteIdxOfColon_append (a b : List Nat) (h : 58 ∉ a) :
    byteIdxOfColon (a ++ b) = (byteIdxOfColon b).map (a.length + ·) := by
  induction a with
  | nil =>
    simp only [List.nil_append, List.length_nil]
    cases byteIdxOfColon b <;> simp
  | cons x xs ih =>
    simp only [List.mem_cons, not_or] at h
    have hx : ¬(x = 58) := fun hh => h.1 hh.symm
    have ih2 := ih h.2
    cases hb : byteIdxOfColon b with
    | none =>
      rw [hb] at ih2
      simp [byteIdxOfColon, hx, ih2]
    | some i =>
      rw [hb] at ih2
      simp [byteIdxOfColon, hx, ih2]
      omega

theorem byteIdxOfColon_isSome (l : List Nat) (h : 58 ∈ l) :
    ∃ i, byteIdxOfColon l = some i := by
  induction l with
  | nil => simp at h
  | cons b rest ih =>
    by_cases hb : b = 58
    · exact ⟨0, by simp [byteIdxOfColon, hb]⟩
    · have : 58 ∈ rest := by
        rcases List.mem_cons.mp h with h1 | h1
        · exact absurd h1.symm hb
        · exact h1
      obtain ⟨i, hi⟩ := ih this
      exact ⟨i + 1, by simp [byteIdxOfColon, hb, hi]⟩

/-- Splitting a character list at its first colon: when the list
decomposes as a colon-free prefix, a colon, and a remainder, the byte
index of the first colon byte is the byte length of that prefix, and
taking that many bytes yields exactly the bytes of the prefix. -/
theorem colon_split (pre rest : List Char) (hpre : ':' ∉ pre) :
    byteIdxOfColon (listBytes (pre ++ ':' :: rest)) = some (listBytes pre).length ∧
    (listBytes (pre ++ ':' :: rest)).take (listBytes pre).length = listBytes pre := by
  have hno58 : 58 ∉ listBytes pre := fun hm => hpre ((mem58_listBytes_iff pre).mp hm)
  constructor
  · rw [listBytes_append, byteIdxOfColon_append _ _ hno58]
    simp [listBytes, charBytes_colon, byteIdxOfColon]
  · rw [listBytes_append]
    exact List.take_left _ _

/-! ### Inversion lemmas for the pipeline operations -/

theorem foio_error_inv {u : Url} {db : Db} {f : Failure}
    (h : find_or_insert_origin u db = Except.error f) :
    u.originTuple = none ∧ f = Failure.err "Opaque URLs are not supported." := by
  unfold find_or_insert_origin at h
  cases hu : u.originTuple with
  | none =>
    rw [hu] at h
    simp at h
    exact ⟨rfl, h.symm⟩
  | some t =>
    obtain ⟨s, ho, p⟩ := t
    rw [hu] at h
    dsimp at h
    cases hl : origin_lookup (origin_key s ho p) db with
    | some o => rw [hl] at h; simp at h
    | none => rw [hl] at h; simp at h

theorem foio_ok_inv {u : Url} {db : Db} {i : Nat} {db1 : Db}
    (h : find_or_insert_origin u db = Except.ok (i, db1)) :
    ∃ s ho p, u.originTuple = some (s, ho, p) ∧
      ((∃ o, origin_lookup (origin_key s ho p) db = some o ∧ i = o.id ∧ db1 = db) ∨
       (origin_lookup (origin_key s ho p) db = none ∧ i = db.nextOriginId ∧
        db1 = { db with
                  origins := db.origins ++ [newOriginRow db.nextOriginId (origin_key s ho p)],
                  nextOriginId := db.nextOriginId + 1 })) := by
  unfold find_or_insert_origin at h
  cases hu : u.originTuple with
  | none => rw [hu] at h; simp at h
  | some t =>
    obtain ⟨s, ho, p⟩ := t
    rw [hu] at h
    dsimp at h
    refine ⟨s, ho, p, rfl, ?_⟩
    cases hl : origin_lookup (origin_key s ho p) db with
    | some o =>
      rw [hl] at h
      simp at h
      exact Or.inl ⟨o, rfl, h.1.symm, h.2.symm⟩
    | none =>
      rw [hl] at h
      simp at h
      exact Or.inr ⟨rfl, h.1.symm, h.2.symm⟩

theorem foip_found {u : Url} {title : Option String} {db : Db} {r : PlaceRow}
    (h : place_lookup u db = some r) :
    find_or_insert_place u title db = Except.ok (r.id, db) := by
  unfold find_or_insert_place
  rw [h]

theorem foip_ok_inv {u : Url} {title : Option String} {db : Db} {p : Nat} {db1 : Db}
    (h : find_or_insert_place u title db = Except.ok (p, db1)) :
    (∃ r, place_lookup u db = some r ∧ p = r.id ∧ db1 = db) ∨
    (place_lookup u db = none ∧
     ∃ hh uh oid db2, u.hostStr = some hh ∧ Hash.hash u.serialization = Except.ok uh ∧
       find_or_insert_origin u { db with guidPool := db.guidPool.tail } = Except.ok (oid, db2) ∧
       p = db2.nextPlaceId ∧
       db1 = { db2 with
                 places := db2.places ++
                   [newPlaceRow db2.nextPlaceId u title (revHostOf hh)
                     (db.guidPool.headD "") uh oid],
                 nextPlaceId := db2.nextPlaceId + 1 }) := by
  unfold find_or_insert_place at h
  cases hl : place_lookup u db with
  | some r =>
    rw [hl] at h
    simp at h
    exact Or.inl ⟨r, rfl, h.1.symm, h.2.symm⟩
  | none =>
    rw [hl] at h
    cases hh : u.hostStr with
    | none => rw [hh] at h; simp at h
    | some hs =>
      rw [hh] at h
      simp only [] at h
      cases hhash : Hash.hash u.serialization with
      | error e => rw [hhash] at h; simp at h
      | ok uh =>
        rw [hhash] at h
        cases hor : find_or_insert_origin u { db with guidPool := db.guidPool.tail } with
        | error f => rw [hor] at h; simp at h
        | ok pr =>
          obtain ⟨oid, db2⟩ := pr
          rw [hor] at h
          injection h with h2
          injection h2 with hp hdb
          exact Or.inr ⟨rfl, hs, uh, oid, db2, rfl, rfl, rfl, hp.symm, hdb.symm⟩

theorem foip_error_inv {u : Url} {title : Option String} {db : Db} {f : Failure}
    (h : find_or_insert_place u title db = Except.error f) :
    place_lookup u db = none ∧
    ((u.hostStr = none ∧ f = Failure.fatal "URL must have a host.") ∨
     (∃ hh, u.hostStr = some hh ∧
       ((∃ e, Hash.hash u.serialization = Except.error e ∧ f = Failure.err e) ∨
        (∃ uh, Hash.hash u.serialization = Except.ok uh ∧
          find_or_insert_origin u { db with guidPool := db.guidPool.tail } =
            Except.error f)))) := by
  unfold find_or_insert_place at h
  cases hl : place_lookup u db with
  | some r => rw [hl] at h; simp at h
  | none =>
    rw [hl] at h
    refine ⟨rfl, ?_⟩
    cases hh : u.hostStr with
    | none =>
      rw [hh] at h
      simp at h
      exact Or.inl ⟨rfl, h.symm⟩
    | some hs =>
      rw [hh] at h
      simp only [] at h
      cases hhash : Hash.hash u.serialization with
      | error e =>
        rw [hhash] at h
        simp at h
        exact Or.inr ⟨hs, rfl, Or.inl ⟨e, rfl, h.symm⟩⟩
      | ok uh =>
        rw [hhash] at h
        cases hor : find_or_insert_origin u { db with guidPool := db.guidPool.tail } with
        | error f2 =>
          rw [hor] at h
          simp at h
          subst h
          exact Or.inr ⟨hs, rfl, Or.inr ⟨uh, rfl, rfl⟩⟩
        | ok pr =>
          obtain ⟨oid, db2⟩ := pr
          rw [hor] at h
          simp at h

theorem iv_dup {u : Url} {title : Option String} {time : Nat} {db : Db}
    (h : visit_exists time db = true) :
    insert_visit u title time db = Except.ok db := by
  unfold insert_visit
  simp [h]

theorem iv_ok_inv {u : Url} {title : Option String} {time : Nat} {db db' : Db}
    (h : insert_visit u title time db = Except.ok db') :
    (visit_exists time db = true ∧ db' = db) ∨
    (visit_exists time db = false ∧
     ∃ p db1, find_or_insert_place u title db = Except.ok (p, db1) ∧
       db' = { db1 with places := db1.places.map (bumpPlace p time),
                        visits := db1.visits ++ [newVisitRow p time] }) := by
  unfold insert_visit at h
  cases hv : visit_exists time db with
  | true =>
    rw [hv] at h
    simp at h
    exact Or.inl ⟨rfl, h.symm⟩
  | false =>
    rw [hv] at h
    simp only [Bool.false_eq_true, if_false] at h
    cases hp : find_or_insert_place u title db with
    | error f => rw [hp] at h; simp at h
    | ok pr =>
      obtain ⟨p, db1⟩ := pr
      rw [hp] at h
      simp at h
      exact Or.inr ⟨rfl, p, db1, rfl, h.symm⟩

theorem iv_error_inv {u : Url} {title : Option String} {time : Nat} {db : Db} {f : Failure}
    (h : insert_visit u title time db = Except.error f) :
    visit_exists time db = false ∧ find_or_insert_place u title db = Except.error f := by
  unfold insert_visit at h
  cases hv : visit_exists time db with
  | true => rw [hv] at h; simp at h
  | false =>
    rw [hv] at h
    simp only [Bool.false_eq_true, if_false] at h
    cases hp : find_or_insert_place u title db with
    | error f2 =>
      rw [hp] at h
      simp at h
      subst h
      exact ⟨rfl, rfl⟩
    | ok pr =>
      obtain ⟨p, db1⟩ := pr
      rw [hp] at h
      simp at h

theorem pe_ok_inv {e : Entry} {db db' : Db} (h : processEntry e db = Except.ok db') :
    insert_visit e.url (titleOf e) e.timeUsec db = Except.ok db' ∨
    (∃ m, insert_visit e.url (titleOf e) e.timeUsec db = Except.error (Failure.err m) ∧
      db' = db) := by
  unfold processEntry at h
  cases hv : insert_visit e.url (titleOf e) e.timeUsec db with
  | ok db1 =>
    rw [hv] at h
    simp at h
    exact Or.inl (by rw [h])
  | error f =>
    rw [hv] at h
    cases f with
    | err m =>
      simp at h
      exact Or.inr ⟨m, rfl, h.symm⟩
    | fatal m => simp at h

theorem pe_error_inv {e : Entry} {db : Db} {m : String}
    (h : processEntry e db = Except.error m) :
    insert_visit e.url (titleOf e) e.timeUsec db = Except.error (Failure.fatal m) := by
  unfold processEntry at h
  cases hv : insert_visit e.url (titleOf e) e.timeUsec db with
  | ok db1 => rw [hv] at h; simp at h
  | error f =>
    rw [hv] at h
    cases f with
    | err m2 => simp at h
    | fatal m2 =>
      simp at h
      rw [h]

/-! ### Bridging and frame lemmas -/

theorem place_lookup_none_iff {u : Url} {db : Db} :
    place_lookup u db = none ↔ ¬hasPlaceUrl db u.serialization := by
  unfold place_lookup hasPlaceUrl
  rw [List.find?_eq_none]
  simp

theorem visit_exists_true_iff {time : Nat} {db : Db} :
    visit_exists time db = true ↔ hasVisitAt db time := by
  unfold visit_exists hasVisitAt
  rw [List.any_eq_true]
  simp

theorem visit_exists_false_iff {time : Nat} {db : Db} :
    visit_exists time db = false ↔ ¬hasVisitAt db time := by
  rw [← visit_exists_true_iff]
  cases visit_exists time db <;> simp

theorem mem_visitDates_iff {t : Nat} {db : Db} : t ∈ visitDates db ↔ hasVisitAt db t := by
  unfold visitDates hasVisitAt
  simp [List.mem_map]

theorem bumpPlace_url (place time : Nat) (r : PlaceRow) :
    (bumpPlace place time r).url = r.url := by
  unfold bumpPlace
  split <;> rfl

theorem foio_frame {u : Url} {db : Db} {i : Nat} {db1 : Db}
    (h : find_or_insert_origin u db = Except.ok (i, db1)) :
    db1.places = db.places ∧ db1.visits = db.visits ∧
    db1.nextPlaceId = db.nextPlaceId ∧ (∀ o ∈ db.origins, o ∈ db1.origins) := by
  obtain ⟨s, ho, p, _, h2⟩ := foio_ok_inv h
  rcases h2 with ⟨o, _, _, hdb⟩ | ⟨_, _, hdb⟩
  · subst hdb
    exact ⟨rfl, rfl, rfl, fun o ho => ho⟩
  · subst hdb
    refine ⟨rfl, rfl, rfl, fun o ho => ?_⟩
    simp only [List.mem_append]
    exact Or.inl ho

theorem foip_frame {u : Url} {title : Option String} {db : Db} {p : Nat} {db1 : Db}
    (h : find_or_insert_place u title db = Except.ok (p, db1)) :
    db1.visits = db.visits ∧
    (∀ U, hasPlaceUrl db U → hasPlaceUrl db1 U) ∧
    (∀ U, hasPlaceUrl db1 U → hasPlaceUrl db U ∨ U = u.serialization) := by
  rcases foip_ok_inv h with ⟨r, _, _, hdb⟩ | ⟨_, hh, uh, oid, db2, _, _, hor, _, hdb⟩
  · subst hdb
    exact ⟨rfl, fun U hU => hU, fun U hU => Or.inl hU⟩
  · obtain ⟨hop, hov, _, _⟩ := foio_frame hor
    have hp2 : db2.places = db.places := hop
    have hv2 : db2.visits = db.visits := hov
    subst hdb
    refine ⟨hv2, ?_, ?_⟩
    · intro U hU
      obtain ⟨r, hr, hru⟩ := hU
      refine ⟨r, ?_, hru⟩
      simp only [List.mem_append]
      exact Or.inl (by rw [hp2]; exact hr)
    · intro U hU
      obtain ⟨r, hr, hru⟩ := hU
      simp only [List.mem_append, List.mem_singleton] at hr
      rcases hr with hr | hr
      · exact Or.inl ⟨r, by rw [← hp2]; exact hr, hru⟩
      · subst hr
        exact Or.inr (by rw [← hru]; rfl)

theorem iv_frame_ok {u : Url} {title : Option String} {time : Nat} {db db' : Db}
    (h : insert_visit u title time db = Except.ok db') :
    (∀ t, t ∈ visitDates db → t ∈ visitDates db') ∧
    (∀ U, hasPlaceUrl db U → hasPlaceUrl db' U) ∧
    (∀ U, hasPlaceUrl db' U → hasPlaceUrl db U ∨ U = u.serialization) := by
  rcases iv_ok_inv h with ⟨_, hdb⟩ | ⟨_, p, db1, hfp, hdb⟩
  · subst hdb
    exact ⟨fun t ht => ht, fun U hU => hU, fun U hU => Or.inl hU⟩
  · obtain ⟨hv1, hmono, hrefl⟩ := foip_frame hfp
    subst hdb
    refine ⟨?_, ?_, ?_⟩
    · intro t ht
      unfold visitDates at ht ⊢
      simp only [List.map_append, List.mem_append]
      rw [hv1]
      exact Or.inl ht
    · intro U hU
      obtain ⟨r, hr, hru⟩ := hmono U hU
      exact ⟨bumpPlace p time r, List.mem_map_of_mem _ hr, by rw [bumpPlace_url]; exact hru⟩
    · intro U hU
      obtain ⟨r, hr, hru⟩ := hU
      simp only [List.mem_map] at hr
      obtain ⟨r0, hr0, hr0e⟩ := hr
      have : r0.url = U := by rw [← hru, ← hr0e, bumpPlace_url]
      exact hrefl U ⟨r0, hr0, this⟩

theorem pe_frame {e : Entry} {db db' : Db} (h : processEntry e db = Except.ok db') :
    (∀ t, t ∈ visitDates db → t ∈ visitDates db') ∧
    (∀ U, hasPlaceUrl db U → hasPlaceUrl db' U) ∧
    (∀ U, hasPlaceUrl db' U → hasPlaceUrl db U ∨ U = e.url.serialization) := by
  rcases pe_ok_inv h with hiv | ⟨m, _, hdb⟩
  · exact iv_frame_ok hiv
  · subst hdb
    exact ⟨fun t ht => ht, fun U hU => hU, fun U hU => Or.inl hU⟩

/-- The key dichotomy for rerun reasoning: a successfully processed
entry either leaves its timestamp present among the visit dates, or
changed nothing because its URL always fails with a caught error and no
place row with its URL existed. -/
theorem pe_dichotomy {e : Entry} {db db' : Db} (h : processEntry e db = Except.ok db') :
    e.timeUsec ∈ visitDates db' ∨
    (db' = db ∧ badUrl e.url ∧ ¬hasPlaceUrl db e.url.serialization) := by
  rcases pe_ok_inv h with hiv | ⟨m, hiv, hdb⟩
  · rcases iv_ok_inv hiv with ⟨hex, hdb⟩ | ⟨_, p, db1, hfp, hdb⟩
    · subst hdb
      exact Or.inl (mem_visitDates_iff.mpr (visit_exists_true_iff.mp hex))
    · subst hdb
      refine Or.inl ?_
      unfold visitDates
      simp [List.mem_map, newVisitRow]
  · obtain ⟨_, hfpe⟩ := iv_error_inv hiv
    obtain ⟨hnone, hrest⟩ := foip_error_inv hfpe
    subst hdb
    refine Or.inr ⟨rfl, ?_, place_lookup_none_iff.mp hnone⟩
    rcases hrest with ⟨_, hfatal⟩ | ⟨hh, hhs, hcase⟩
    · exact absurd hfatal (by simp)
    · refine ⟨⟨hh, hhs⟩, ?_⟩
      rcases hcase with ⟨e2, he2, _⟩ | ⟨uh, _, hoe⟩
      · exact Or.inl ⟨e2, he2⟩
      · obtain ⟨hop, _⟩ := foio_error_inv hoe
        exact Or.inr hop

/-! ### Run-level lemmas -/

theorem foio_err_on_opaque_origin {u : Url} {db : Db} (h : u.originTuple = none) :
    find_or_insert_origin u db =
      Except.error (Failure.err "Opaque URLs are not supported.") := by
  unfold find_or_insert_origin
  rw [h]

theorem place_lookup_some {u : Url} {db : Db} {r : PlaceRow}
    (h : place_lookup u db = some r) : r ∈ db.places ∧ r.url = u.serialization := by
  unfold place_lookup at h
  refine ⟨List.mem_of_find?_eq_some h, ?_⟩
  have := List.find?_some h
  simpa using this

theorem iv_err_of_bad (title : Option String) {u : Url} {time : Nat} {db : Db}
    (hbad : badUrl u) (hno : ¬hasPlaceUrl db u.serialization)
    (hfresh : visit_exists time db = false) :
    ∃ m, insert_visit u title time db = Except.error (Failure.err m) := by
  obtain ⟨⟨hh, hhs⟩, hcase⟩ := hbad
  cases hres : insert_visit u title time db with
  | ok db' =>
    exfalso
    rcases iv_ok_inv hres with ⟨hex, _⟩ | ⟨_, p, db1, hfp, _⟩
    · rw [hfresh] at hex
      cases hex
    · rcases foip_ok_inv hfp with ⟨r, hl, _, _⟩ | ⟨_, hh2, uh, oid, db2, _, hhash, hor, _, _⟩
      · obtain ⟨hmem, hurl⟩ := place_lookup_some hl
        exact hno ⟨r, hmem, hurl⟩
      · rcases hcase with ⟨er, her⟩ | hop
        · rw [her] at hhash
          cases hhash
        · obtain ⟨s, ho2, p2, hsome, _⟩ := foio_ok_inv hor
          rw [hop] at hsome
          cases hsome
  | error f =>
    obtain ⟨_, hfpe⟩ := iv_error_inv hres
    obtain ⟨_, hrest⟩ := foip_error_inv hfpe
    rcases hrest with ⟨hhn, _⟩ | ⟨hh2, _, hcase2⟩
    · rw [hhs] at hhn
      cases hhn
    · rcases hcase2 with ⟨e2, _, hf⟩ | ⟨uh, _, hoe⟩
      · exact ⟨e2, by rw [hf]⟩
      · obtain ⟨_, hf⟩ := foio_error_inv hoe
        exact ⟨"Opaque URLs are not supported.", by rw [hf]⟩

theorem pe_noop_of_bad {e : Entry} {db : Db} (hbad : badUrl e.url)
    (hno : ¬hasPlaceUrl db e.url.serialization) :
    processEntry e db = Except.ok db := by
  cases hv : visit_exists e.timeUsec db with
  | true =>
    unfold processEntry
    rw [iv_dup hv]
  | false =>
    obtain ⟨m, hm⟩ := iv_err_of_bad (titleOf e) hbad hno hv
    unfold processEntry
    rw [hm]

theorem pe_preserves_noPlace {e : Entry} {u : Url} {db db' : Db}
    (h : processEntry e db = Except.ok db')
    (hbad : badUrl u) (hno : ¬hasPlaceUrl db u.serialization)
    (hinj : e.url.serialization = u.serialization → e.url = u) :
    ¬hasPlaceUrl db' u.serialization := by
  intro hP
  rcases (pe_frame h).2.2 _ hP with hPdb | hEq
  · exact hno hPdb
  · have heu : e.url = u := hinj hEq.symm
    have hnoop : processEntry e db = Except.ok db :=
      pe_noop_of_bad (by rw [heu]; exact hbad) (by rw [heu]; exact hno)
    rw [hnoop] at h
    injection h with hdb
    subst hdb
    exact hno hP

theorem runChunk_dates_mono {l : List Entry} {db db' : Db}
    (h : runChunk l db = Except.ok db') :
    ∀ t, t ∈ visitDates db → t ∈ visitDates db' := by
  induction l generalizing db with
  | nil =>
    unfold runChunk at h
    injection h with hdb
    subst hdb
    exact fun t ht => ht
  | cons e rest ih =>
    unfold runChunk at h
    cases hpe : processEntry e db with
    | ok db1 =>
      rw [hpe] at h
      exact fun t ht => ih h t ((pe_frame hpe).1 t ht)
    | error m =>
      rw [hpe] at h
      cases h

theorem runChunk_preserves_noPlace {l : List Entry} {u : Url} {db db' : Db}
    (h : runChunk l db = Except.ok db') (hbad : badUrl u)
    (hno : ¬hasPlaceUrl db u.serialization)
    (hinj : ∀ e ∈ l, e.url.serialization = u.serialization → e.url = u) :
    ¬hasPlaceUrl db' u.serialization := by
  induction l generalizing db with
  | nil =>
    unfold runChunk at h
    injection h with hdb
    subst hdb
    exact hno
  | cons e rest ih =>
    unfold runChunk at h
    cases hpe : processEntry e db with
    | ok db1 =>
      rw [hpe] at h
      exact ih h
        (pe_preserves_noPlace hpe hbad hno (hinj e (List.mem_cons_self e rest)))
        (fun e2 he2 => hinj e2 (List.mem_cons_of_mem e he2))
    | error m =>
      rw [hpe] at h
      cases h

theorem runChunk_establishes {l : List Entry} {db db' : Db}
    (h : runChunk l db = Except.ok db')
    (hinj : ∀ e1 ∈ l, ∀ e2 ∈ l,
      e1.url.serialization = e2.url.serialization → e1.url = e2.url) :
    ∀ e ∈ l, e.timeUsec ∈ visitDates db' ∨
      (badUrl e.url ∧ ¬hasPlaceUrl db' e.url.serialization) := by
  induction l generalizing db with
  | nil => intro e he; cases he
  | cons e0 rest ih =>
    unfold runChunk at h
    cases hpe : processEntry e0 db with
    | error m =>
      rw [hpe] at h
      cases h
    | ok db1 =>
      rw [hpe] at h
      intro e he
      rcases List.mem_cons.mp he with rfl | hrest
      · rcases pe_dichotomy hpe with hdate | ⟨hdbEq, hbad, hnp⟩
        · exact Or.inl (runChunk_dates_mono h _ hdate)
        · subst hdbEq
          refine Or.inr ⟨hbad, runChunk_preserves_noPlace h hbad hnp ?_⟩
          intro e2 he2 hs
          exact hinj e2 (List.mem_cons_of_mem _ he2) e
            (List.mem_cons_self e rest) hs
      · exact ih h
          (fun e1 he1 e2 he2 =>
            hinj e1 (List.mem_cons_of_mem e0 he1) e2 (List.mem_cons_of_mem e0 he2))
          e hrest

theorem pe_rerun {e : Entry} {db : Db}
    (hP : e.timeUsec ∈ visitDates db ∨
      (badUrl e.url ∧ ¬hasPlaceUrl db e.url.serialization)) :
    processEntry e db = Except.ok db := by
  rcases hP with hd | ⟨hbad, hno⟩
  · unfold processEntry
    rw [iv_dup (visit_exists_true_iff.mpr (mem_visitDates_iff.mp hd))]
  · exact pe_noop_of_bad hbad hno

theorem runChunk_rerun {l : List Entry} {db : Db}
    (hP : ∀ e ∈ l, e.timeUsec ∈ visitDates db ∨
      (badUrl e.url ∧ ¬hasPlaceUrl db e.url.serialization)) :
    runChunk l db = Except.ok db := by
  induction l with
  | nil => rfl
  | cons e rest ih =>
    unfold runChunk
    rw [pe_rerun (hP e (List.mem_cons_self e rest))]
    exact ih (fun e2 he2 => hP e2 (List.mem_cons_of_mem e he2))

theorem runBatches_of_runChunk {l : List Entry} {db db' : Db}
    (h : runChunk l db = Except.ok db') :
    ∀ (cap : Nat) (committed : Db),
      runBatches l cap committed db = RunResult.finished db' := by
  induction l generalizing db with
  | nil =>
    intro cap committed
    unfold runChunk at h
    injection h with hdb
    rw [hdb]
    rfl
  | cons e rest ih =>
    intro cap committed
    unfold runChunk at h
    cases hpe : processEntry e db with
    | ok db1 =>
      rw [hpe] at h
      cases cap with
      | zero =>
        unfold runBatches
        rw [hpe]
        exact ih h 999 db
      | succ k =>
        unfold runBatches
        rw [hpe]
        exact ih h k committed
    | error m =>
      rw [hpe] at h
      cases h

theorem runChunk_of_runBatches {l : List Entry} {db' : Db} :
    ∀ (db committed : Db) (cap : Nat),
      runBatches l cap committed db = RunResult.finished db' →
      runChunk l db = Except.ok db' := by
  induction l with
  | nil =>
    intro db committed cap h
    unfold runBatches at h
    injection h with hdb
    rw [hdb]
    rfl
  | cons e rest ih =>
    intro db committed cap h
    unfold runChunk
    cases cap with
    | zero =>
      unfold runBatches at h
      cases hpe : processEntry e db with
      | ok db1 =>
        rw [hpe] at h
        exact ih db1 db 999 h
      | error m =>
        rw [hpe] at h
        cases h
    | succ k =>
      unfold runBatches at h
      cases hpe : processEntry e db with
      | ok db1 =>
        rw [hpe] at h
        exact ih db1 committed k h
      | error m =>
        rw [hpe] at h
        cases h

theorem runImport_finished_iff (entries : List Entry) (db db' : Db) :
    runImport entries db = RunResult.finished db' ↔
      runChunk entries db = Except.ok db' := by
  constructor
  · intro h
    exact runChunk_of_runBatches db db 1000 h
  · intro h
    exact runBatches_of_runChunk h 1000 db

/-! ## Claim theorems -/

/-- C1: for every input string containing at least one colon, hash
returns exactly the low 16 bits of the simple hash of the prefix before
the first colon, shifted left by 32, plus the simple hash of the whole
string, where the simple hash folds the raw bytes left to right as a
wrapping 32-bit multiplication of GOLDEN_RATIO with the rotated
accumulator XOR the byte, starting from 0; hash is a pure function, so
determinism is immediate.  The prefix before the first colon is
presented as the decomposition of the character data into a colon-free
prefix, the first colon, and the remainder. -/
theorem c1_hash_formula (s : String) (pre rest : List Char)
    (hs : s.data = pre ++ ':' :: rest) (hpre : ':' ∉ pre) :
    Hash.hash s =
      Except.ok (((hash_simple (String.mk pre) &&& 0x0000FFFF) <<< 32) +
        hash_simple s) := by
  obtain ⟨hidx, htake⟩ := colon_split pre rest hpre
  unfold Hash.hash
  have hbytes : strBytes s = listBytes (pre ++ ':' :: rest) := by rw [strBytes, hs]
  rw [hbytes, hidx]
  show Except.ok (((hashBytes ((listBytes (pre ++ ':' :: rest)).take
      (listBytes pre).length) &&& 0x0000FFFF) <<< 32) + hash_simple s) = _
  rw [htake]
  rfl

theorem c1_hash_formula_witness :
    Hash.hash "a:b" =
      Except.ok (((hash_simple (String.mk ['a']) &&& 0x0000FFFF) <<< 32) +
        hash_simple "a:b") :=
  c1_hash_formula "a:b" ['a'] ['b'] (by decide) (by decide)

/-- C9: hash fails exactly when the input contains no colon character:
without a colon it returns the missing-protocol error, and with one it
returns a value; there is no other error path. -/
theorem c9_hash_error_iff (s : String) :
    ((':' : Char) ∉ s.data →
      Hash.hash s = Except.error "URL is missing the protocol.") ∧
    ((':' : Char) ∈ s.data → ∃ v, Hash.hash s = Except.ok v) := by
  constructor
  · intro h
    have h58 : 58 ∉ strBytes s := fun hm => h ((mem58_listBytes_iff s.data).mp hm)
    unfold Hash.hash
    rw [byteIdxOfColon_eq_none _ h58]
  · intro h
    have h58 : 58 ∈ strBytes s := (mem58_listBytes_iff s.data).mpr h
    obtain ⟨i, hi⟩ := byteIdxOfColon_isSome _ h58
    refine ⟨((hashBytes ((strBytes s).take i) &&& 0x0000FFFF) <<< 32) + hash_simple s, ?_⟩
    unfold Hash.hash
    rw [hi]

theorem c9_hash_error_iff_witness :
    Hash.hash "no-protocol-here" = Except.error "URL is missing the protocol." ∧
    ∃ v, Hash.hash "a:b" = Except.ok v :=
  ⟨(c9_hash_error_iff "no-protocol-here").1 (by decide),
   (c9_hash_error_iff "a:b").2 (by decide)⟩

/-- C2: visit deduplication keys solely on the timestamp: a visit whose
timestamp is already present is skipped with success for any URL and
title (first seen wins), and when the visit dates start pairwise
distinct they stay pairwise distinct, so at most one visit row exists
per timestamp value. -/
theorem c2_dedup_timestamp_only :
    (∀ (u : Url) (title : Option String) (time : Nat) (db : Db),
      hasVisitAt db time → insert_visit u title time db = Except.ok db) ∧
    (∀ (u : Url) (title : Option String) (time : Nat) (db db' : Db),
      (visitDates db).Nodup → insert_visit u title time db = Except.ok db' →
      (visitDates db').Nodup) := by
  constructor
  · intro u title time db hdup
    exact iv_dup (visit_exists_true_iff.mpr hdup)
  · intro u title time db db' hnd hins
    rcases iv_ok_inv hins with ⟨_, hdb⟩ | ⟨hfresh, p, db1, hfp, hdb⟩
    · subst hdb
      exact hnd
    · subst hdb
      have hv1 : db1.visits = db.visits := (foip_frame hfp).1
      have hnotin : time ∉ visitDates db := by
        intro hmem
        have := visit_exists_true_iff.mpr (mem_visitDates_iff.mp hmem)
        rw [hfresh] at this
        cases this
      unfold visitDates at hnd hnotin ⊢
      simp only [List.map_append, hv1]
      rw [List.nodup_append]
      refine ⟨hnd, by simp [newVisitRow], ?_⟩
      intro t ht
      simp [newVisitRow]
      intro hmem
      subst hmem
      exact absurd ht hnotin

/-- C10: when an entry's timestamp already exists among the recorded
visits, insert_visit returns success and leaves the entire database
state unchanged — no visit row inserted, no aggregates updated, no
place or origin row created — even for a URL never seen before, because
the duplicate check precedes place resolution. -/
theorem c10_dup_skip (u : Url) (title : Option String) (time : Nat) (db : Db)
    (hdup : hasVisitAt db time) :
    insert_visit u title time db = Except.ok db :=
  iv_dup (visit_exists_true_iff.mpr hdup)

theorem c10_dup_skip_witness :
    insert_visit exUrl (some "t") 100 exDbVisited = Except.ok exDbVisited ∧
    ¬hasPlaceUrl exDbVisited exUrl.serialization :=
  ⟨c10_dup_skip exUrl (some "t") 100 exDbVisited (by decide), by decide⟩

theorem c2_dedup_timestamp_only_witness :
    insert_visit exUrlA none 100 exDbVisited = Except.ok exDbVisited ∧
    (visitDates exDbVisited).Nodup :=
  ⟨(c2_dedup_timestamp_only.1 exUrlA none 100 exDbVisited (by decide)),
   by decide⟩

/-! ### Origin resolver lemmas and C5 -/

theorem origin_lookup_some {key : String × String} {db : Db} {o : OriginRow}
    (h : origin_lookup key db = some o) :
    o ∈ db.origins ∧ o.host = key.2 ∧ o.pfx = key.1 := by
  unfold origin_lookup at h
  refine ⟨List.mem_of_find?_eq_some h, ?_⟩
  have := List.find?_some h
  simpa using this

theorem origin_lookup_append {key : String × String} {db db' : Db} {id : Nat}
    (h' : db'.origins = db.origins ++ [newOriginRow id key])
    (hl : origin_lookup key db = none) :
    origin_lookup key db' = some (newOriginRow id key) := by
  unfold origin_lookup at *
  rw [h', List.find?_append, hl]
  simp [newOriginRow]

theorem foio_found {u : Url} {db : Db} {s ho : String} {p : Nat} {o : OriginRow}
    (ht : u.originTuple = some (s, ho, p))
    (hl : origin_lookup (origin_key s ho p) db = some o) :
    find_or_insert_origin u db = Except.ok (o.id, db) := by
  unfold find_or_insert_origin
  rw [ht]
  dsimp only
  rw [hl]

theorem foio_ok_cases {u : Url} {db : Db} {i : Nat} {db1 : Db} {s ho : String} {p : Nat}
    (ht : u.originTuple = some (s, ho, p))
    (h : find_or_insert_origin u db = Except.ok (i, db1)) :
    (∃ o, origin_lookup (origin_key s ho p) db = some o ∧ i = o.id ∧ db1 = db) ∨
    (origin_lookup (origin_key s ho p) db = none ∧ i = db.nextOriginId ∧
     db1 = { db with
               origins := db.origins ++ [newOriginRow db.nextOriginId (origin_key s ho p)],
               nextOriginId := db.nextOriginId + 1 }) := by
  unfold find_or_insert_origin at h
  rw [ht] at h
  dsimp only at h
  cases hl : origin_lookup (origin_key s ho p) db with
  | some o =>
    rw [hl] at h
    injection h with h2
    injection h2 with hi hdb
    exact Or.inl ⟨o, rfl, hi.symm, hdb.symm⟩
  | none =>
    rw [hl] at h
    injection h with h2
    injection h2 with hi hdb
    exact Or.inr ⟨rfl, hi.symm, hdb.symm⟩

/-- C5: the origin key is the scheme followed by the separator paired
with the host, into which any port other than 443-for-https and
80-for-http is folded as host then colon then port; resolving two URLs
with the same origin tuple yields the same origin id with no new row,
and resolving a URL with port 8443 yields an origin distinct from the
port-443 origin of the same https host. -/
theorem c5_origin_identity :
    (∀ (s ho : String) (p : Nat), origin_key s ho p =
      (s ++ "://",
        if (s = "https" ∧ p = 443) ∨ (s = "http" ∧ p = 80) then ho
        else ho ++ ":" ++ toString p)) ∧
    (∀ (u1 u2 : Url) (db db1 : Db) (i : Nat), u2.originTuple = u1.originTuple →
      find_or_insert_origin u1 db = Except.ok (i, db1) →
      find_or_insert_origin u2 db1 = Except.ok (i, db1)) ∧
    (∀ (ho : String) (u1 u2 : Url) (db db1 db2 : Db) (i1 i2 : Nat), WfIds db →
      u1.originTuple = some ("https", ho, 443) →
      u2.originTuple = some ("https", ho, 8443) →
      find_or_insert_origin u1 db = Except.ok (i1, db1) →
      find_or_insert_origin u2 db1 = Except.ok (i2, db2) →
      i1 ≠ i2) := by
  refine ⟨?_, ?_, ?_⟩
  · intro s ho p
    have happs : ("https" : String) ++ "://" = "https://" := by decide
    have happh : ("http" : String) ++ "://" = "http://" := by decide
    have hne2 : ("http" : String) ≠ "https" := by decide
    unfold origin_key
    by_cases hs : s = "https"
    · subst hs
      rw [if_pos rfl, happs]
      by_cases hp : p = 443
      · subst hp
        rw [if_pos rfl, if_pos (Or.inl ⟨rfl, rfl⟩)]
      · rw [if_neg hp,
          if_neg (fun hc => hc.elim (fun hc1 => hp hc1.2) (fun hc2 => hne2 hc2.1.symm))]
    · by_cases hs2 : s = "http"
      · subst hs2
        rw [if_neg hne2, if_pos rfl, happh]
        by_cases hp : p = 80
        · subst hp
          rw [if_pos rfl, if_pos (Or.inr ⟨rfl, rfl⟩)]
        · rw [if_neg hp,
            if_neg (fun hc => hc.elim (fun hc1 => hne2 hc1.1) (fun hc2 => hp hc2.2))]
      · rw [if_neg hs, if_neg hs2,
          if_neg (fun hc => hc.elim (fun hc1 => hs hc1.1) (fun hc2 => hs2 hc2.1))]
  · intro u1 u2 db db1 i hsame h1
    obtain ⟨s, ho, p, ht1, _⟩ := foio_ok_inv h1
    have ht2 : u2.originTuple = some (s, ho, p) := by rw [hsame, ht1]
    rcases foio_ok_cases ht1 h1 with ⟨o, hl, hi, hdb⟩ | ⟨hl, hi, hdb⟩
    · subst hdb
      subst hi
      exact foio_found ht2 hl
    · subst hdb
      subst hi
      refine foio_found (o := newOriginRow db.nextOriginId (origin_key s ho p)) ht2 ?_
      exact origin_lookup_append rfl hl
  · intro ho u1 u2 db db1 db2 i1 i2 hwf ht1 ht2 h1 h2
    have hkey1 : origin_key "https" ho 443 = ("https://", ho) := by
      simp [origin_key]
    have hkey2 : origin_key "https" ho 8443 =
        ("https://", ho ++ ":" ++ toString (8443 : Nat)) := by
      simp [origin_key]
    have hlen : (toString (8443 : Nat)).length = 4 := by decide
    have hhost : ho ≠ ho ++ ":" ++ toString (8443 : Nat) := by
      intro heq
      have := congrArg String.length heq
      rw [String.length_append, String.length_append] at this
      have hc : (":" : String).length = 1 := by decide
      omega
    rcases foio_ok_cases ht1 h1 with ⟨o1, hl1, hi1, hdb1⟩ | ⟨hl1, hi1, hdb1⟩
    · subst hdb1
      rcases foio_ok_cases ht2 h2 with ⟨o2, hl2, hi2, hdb2⟩ | ⟨hl2, hi2, hdb2⟩
      · obtain ⟨hm1, hh1, _⟩ := origin_lookup_some hl1
        obtain ⟨hm2, hh2, _⟩ := origin_lookup_some hl2
        have hh1a : o1.host = ho := by
          rw [hkey1] at hh1
          exact hh1
        have hh2a : o2.host = ho ++ ":" ++ toString (8443 : Nat) := by
          rw [hkey2] at hh2
          exact hh2
        have hne : o1 ≠ o2 := fun he =>
          hhost ((hh1a.symm.trans (congrArg OriginRow.host he)).trans hh2a)
        subst hi1
        subst hi2
        intro he
        exact hne (List.inj_on_of_nodup_map hwf.2.2.2 hm1 hm2 he)
      · obtain ⟨hm1, _, _⟩ := origin_lookup_some hl1
        have hb := hwf.2.2.1 o1 hm1
        subst hi1
        subst hi2
        omega
    · rcases foio_ok_cases ht2 h2 with ⟨o2, hl2, hi2, hdb2⟩ | ⟨hl2, hi2, hdb2⟩
      · obtain ⟨hm2, hh2, _⟩ := origin_lookup_some hl2
        rw [hdb1] at hm2
        simp only [List.mem_append, List.mem_singleton] at hm2
        rcases hm2 with hm2 | hm2
        · have hb := hwf.2.2.1 o2 hm2
          subst hi1
          subst hi2
          omega
        · subst hm2
          have hh2a : ho = ho ++ ":" ++ toString (8443 : Nat) := by
            rw [hkey2] at hh2
            rw [hkey1] at hh2
            simpa [newOriginRow] using hh2
          exact absurd hh2a hhost
      · subst hi1
        subst hi2
        rw [hdb1]
        simp

theorem c5_origin_identity_witness :
    find_or_insert_origin exUrl exDbO1 = Except.ok (1, exDbO1) ∧ (1 : Nat) ≠ 2 :=
  ⟨c5_origin_identity.2.1 exUrl exUrl exDb exDbO1 1 rfl (by decide),
   c5_origin_identity.2.2 "example.com" exUrl exUrl8443 exDb exDbO1 exDbO2 1 2
     (by decide) rfl rfl (by decide) (by decide)⟩

/-! ### Place resolver lemmas, C6 and C7 -/

theorem place_lookup_append (u : Url) (db db' : Db) (row : PlaceRow)
    (h' : db'.places = db.places ++ [row]) (hrow : row.url = u.serialization)
    (hl : place_lookup u db = none) :
    place_lookup u db' = some row := by
  unfold place_lookup at *
  rw [h', List.find?_append, hl]
  simp [hrow]

/-- C6: recording a visit at a timestamp not yet present bumps the
place aggregates — visit count plus one, last visit date the maximum of
the previous one (or 0) and the timestamp, frecency recalculation flag
set — and appends exactly one visit row for that place with the fixed
default markers and no referrer, leaving the origin table as the place
resolution left it. -/
theorem c6_fresh_visit_effects (u : Url) (title : Option String) (time : Nat)
    (db db' : Db) (hfresh : ¬hasVisitAt db time)
    (hok : insert_visit u title time db = Except.ok db') :
    ∃ p db1, find_or_insert_place u title db = Except.ok (p, db1) ∧
      db'.visits = db.visits ++ [newVisitRow p time] ∧
      db'.origins = db1.origins ∧
      db'.places = db1.places.map (bumpPlace p time) ∧
      (∀ r ∈ db1.places, r.id = p →
        { r with visitCount := r.visitCount + 1,
                 lastVisitDate := some (Nat.max (r.lastVisitDate.getD 0) time),
                 recalcFrecency := 1 } ∈ db'.places) ∧
      (∀ r ∈ db1.places, r.id ≠ p → r ∈ db'.places) := by
  rcases iv_ok_inv hok with ⟨hex, _⟩ | ⟨_, p, db1, hfp, hdb⟩
  · exact absurd (visit_exists_true_iff.mp hex) hfresh
  · have hv1 : db1.visits = db.visits := (foip_frame hfp).1
    subst hdb
    refine ⟨p, db1, hfp, by rw [hv1], rfl, rfl, ?_, ?_⟩
    · intro r hr hid
      have : bumpPlace p time r =
          { r with visitCount := r.visitCount + 1,
                   lastVisitDate := some (Nat.max (r.lastVisitDate.getD 0) time),
                   recalcFrecency := 1 } := by
        unfold bumpPlace
        rw [if_pos hid]
      exact this ▸ List.mem_map_of_mem _ hr
    · intro r hr hid
      have : bumpPlace p time r = r := by
        unfold bumpPlace
        rw [if_neg hid]
      exact this ▸ List.mem_map_of_mem _ hr

theorem c6_fresh_visit_effects_witness :
    ∃ p db1, find_or_insert_place exUrl (some "t") exDb = Except.ok (p, db1) ∧
      exDbV.visits = exDb.visits ++ [newVisitRow p 50] ∧
      exDbV.origins = db1.origins ∧
      exDbV.places = db1.places.map (bumpPlace p 50) ∧
      (∀ r ∈ db1.places, r.id = p →
        { r with visitCount := r.visitCount + 1,
                 lastVisitDate := some (Nat.max (r.lastVisitDate.getD 0) 50),
                 recalcFrecency := 1 } ∈ exDbV.places) ∧
      (∀ r ∈ db1.places, r.id ≠ p → r ∈ exDbV.places) :=
  c6_fresh_visit_effects exUrl (some "t") 50 exDb exDbV (by decide) (by decide)

/-- C7: place resolution is find-or-create keyed on the exact URL
string: resolving the same URL again returns the same id and leaves the
state unchanged regardless of the title passed; under well-formed ids,
URLs with different serializations resolve to different place ids; and
a miss inserts exactly one new row built from the reversed host with a
trailing dot, the next guid from the pool, the computed url hash, the
resolved origin id, visit count 0 and null last visit date. -/
theorem c7_place_resolution :
    (∀ (u : Url) (t1 t2 : Option String) (db : Db) (p : Nat) (db1 : Db),
      find_or_insert_place u t1 db = Except.ok (p, db1) →
      find_or_insert_place u t2 db1 = Except.ok (p, db1)) ∧
    (∀ (u1 u2 : Url) (t1 t2 : Option String) (db db1 db2 : Db) (p1 p2 : Nat),
      WfIds db → u1.serialization ≠ u2.serialization →
      find_or_insert_place u1 t1 db = Except.ok (p1, db1) →
      find_or_insert_place u2 t2 db1 = Except.ok (p2, db2) →
      p1 ≠ p2) ∧
    (∀ (u : Url) (title : Option String) (db : Db) (p : Nat) (db1 : Db),
      (∀ r ∈ db.places, r.url ≠ u.serialization) →
      find_or_insert_place u title db = Except.ok (p, db1) →
      ∃ hh uh oid db2, u.hostStr = some hh ∧
        Hash.hash u.serialization = Except.ok uh ∧
        find_or_insert_origin u { db with guidPool := db.guidPool.tail } =
          Except.ok (oid, db2) ∧
        p = db2.nextPlaceId ∧
        db1 = { db2 with
                  places := db2.places ++
                    [newPlaceRow p u title (revHostOf hh) (db.guidPool.headD "") uh oid],
                  nextPlaceId := db2.nextPlaceId + 1 }) := by
  refine ⟨?_, ?_, ?_⟩
  · intro u t1 t2 db p db1 h
    rcases foip_ok_inv h with ⟨r, hl, hp, hdb⟩ |
      ⟨hl, hh, uh, oid, db2, hhs, hhash, hor, hp, hdb⟩
    · subst hdb
      subst hp
      exact foip_found hl
    · subst hp
      subst hdb
      have hp2 : db2.places = db.places := (foio_frame hor).1
      have hl0 : place_lookup u db2 = none := by
        unfold place_lookup at hl ⊢
        rw [hp2]
        exact hl
      have hl2 := place_lookup_append u db2
        { db2 with
            places := db2.places ++
              [newPlaceRow db2.nextPlaceId u t1 (revHostOf hh) (db.guidPool.headD "") uh oid],
            nextPlaceId := db2.nextPlaceId + 1 }
        (newPlaceRow db2.nextPlaceId u t1 (revHostOf hh) (db.guidPool.headD "") uh oid)
        rfl rfl hl0
      exact foip_found hl2
  · intro u1 u2 t1 t2 db db1 db2 p1 p2 hwf hne h1 h2
    rcases foip_ok_inv h1 with ⟨r1, hl1, hp1, hdb1⟩ |
      ⟨hl1, hh1, uh1, oid1, dbo1, hhs1, hhash1, hor1, hp1, hdb1⟩
    · obtain ⟨hm1, hu1⟩ := place_lookup_some hl1
      rcases foip_ok_inv h2 with ⟨r2, hl2, hp2, hdb2⟩ |
        ⟨hl2, hh2, uh2, oid2, dbo2, hhs2, hhash2, hor2, hp2, hdb2⟩
      · obtain ⟨hm2, hu2⟩ := place_lookup_some hl2
        rw [hdb1] at hm2
        have hrne : r1 ≠ r2 := fun he => hne (by rw [← hu1, he, hu2])
        rw [hp1, hp2]
        intro he
        exact hrne (List.inj_on_of_nodup_map hwf.2.1 hm1 hm2 he)
      · have hb := hwf.1 r1 hm1
        have hnp : dbo2.nextPlaceId = db1.nextPlaceId := (foio_frame hor2).2.2.1
        rw [hdb1] at hnp
        rw [hp1, hp2, hnp]
        omega
    · have hnp1 : dbo1.nextPlaceId = db.nextPlaceId := (foio_frame hor1).2.2.1
      have hpl1 : dbo1.places = db.places := (foio_frame hor1).1
      rcases foip_ok_inv h2 with ⟨r2, hl2, hp2, hdb2⟩ |
        ⟨hl2, hh2, uh2, oid2, dbo2, hhs2, hhash2, hor2, hp2, hdb2⟩
      · obtain ⟨hm2, hu2⟩ := place_lookup_some hl2
        rw [hdb1] at hm2
        simp only [List.mem_append, List.mem_singleton] at hm2
        rcases hm2 with hm2 | hm2
        · rw [hpl1] at hm2
          have hb := hwf.1 r2 hm2
          rw [hp1, hp2, hnp1]
          omega
        · exfalso
          apply hne
          rw [← hu2, hm2]
          rfl
      · have hnp2 : dbo2.nextPlaceId = db1.nextPlaceId := (foio_frame hor2).2.2.1
        have hd : dbo2.nextPlaceId = dbo1.nextPlaceId + 1 := by
          rw [hnp2, hdb1]
        rw [hp1, hp2]
        omega
  · intro u title db p db1 hno h
    rcases foip_ok_inv h with ⟨r, hl, _, _⟩ |
      ⟨hl, hh, uh, oid, db2, hhs, hhash, hor, hp, hdb⟩
    · obtain ⟨hm, hu⟩ := place_lookup_some hl
      exact absurd hu (hno r hm)
    · subst hp
      exact ⟨hh, uh, oid, db2, hhs, hhash, hor, rfl, hdb⟩

theorem c7_place_resolution_witness :
    find_or_insert_place exUrlA (some "x") exDbPA = Except.ok (1, exDbPA) :=
  c7_place_resolution.1 exUrlA none (some "x") exDb 1 exDbPA (by decide)

/-! ### C3, C4 and C8 -/

theorem bumpPlace_title (place time : Nat) (r : PlaceRow) :
    (bumpPlace place time r).title = r.title := by
  unfold bumpPlace
  split <;> rfl

/-- After a successful place resolution, a place row with the URL's
exact serialization is present. -/
theorem foip_hasPlace {u : Url} {title : Option String} {db : Db} {p : Nat} {db1 : Db}
    (h : find_or_insert_place u title db = Except.ok (p, db1)) :
    hasPlaceUrl db1 u.serialization := by
  rcases foip_ok_inv h with ⟨r, hl, _, hdb⟩ |
    ⟨_, hh, uh, oid, db2, _, _, _, _, hdb⟩
  · subst hdb
    obtain ⟨hm, hu⟩ := place_lookup_some hl
    exact ⟨r, hm, hu⟩
  · subst hdb
    refine ⟨newPlaceRow db2.nextPlaceId u title (revHostOf hh) (db.guidPool.headD "") uh oid,
      ?_, rfl⟩
    simp [List.mem_append]

/-- C3 counterexample: the claim that no single-entry failure aborts
the batch or the run is false.  An entry whose URL has no host (as the
url crate parses about:blank) makes find_or_insert_place panic through
the expect call; the panic is not a Result, so the driver's error
handling does not catch it: the run aborts, the following entry is
never processed, and the open batch is rolled back to the initial
state. -/
theorem c3_counterexample :
    runImport [{ title := "", url := exUrlNoHost, timeUsec := 7 },
               { title := "t", url := exUrl, timeUsec := 8 }] exDb =
      RunResult.aborted "URL must have a host." exDb := by
  decide

/-- C3 amended: every error result raised while processing one entry
(missing URL protocol, opaque origin) is caught by the driver, which
continues with the next entry on the unchanged state; but an entry
whose URL has no host panics, and the panic propagates out of the entry
loop instead of being caught. -/
theorem c3_amended_error_containment :
    (∀ (e : Entry) (db : Db) (m : String) (rest : List Entry),
      insert_visit e.url (titleOf e) e.timeUsec db = Except.error (Failure.err m) →
      runChunk (e :: rest) db = runChunk rest db) ∧
    (∀ (e : Entry) (db : Db) (m : String),
      insert_visit e.url (titleOf e) e.timeUsec db = Except.error (Failure.fatal m) →
      processEntry e db = Except.error m) := by
  constructor
  · intro e db m rest hiv
    have hpe : processEntry e db = Except.ok db := by
      unfold processEntry
      rw [hiv]
    show (match processEntry e db with
          | Except.ok db1 => runChunk rest db1
          | Except.error m2 => Except.error m2) = runChunk rest db
    rw [hpe]
  · intro e db m hiv
    unfold processEntry
    rw [hiv]

theorem c3_amended_error_containment_witness :
    runChunk [{ title := "", url := exUrlOpaque, timeUsec := 5 }] exDb =
      runChunk [] exDb ∧
    processEntry { title := "", url := exUrlNoHost, timeUsec := 7 } exDb =
      Except.error "URL must have a host." :=
  ⟨c3_amended_error_containment.1 { title := "", url := exUrlOpaque, timeUsec := 5 }
      exDb "Opaque URLs are not supported." [] (by decide),
   c3_amended_error_containment.2 { title := "", url := exUrlNoHost, timeUsec := 7 }
      exDb "URL must have a host." (by decide)⟩

/-- C4 counterexample: the claim that after an entry is processed a
place row for its exact URL exists even when the entry's visit is
deduplicated is false.  Processing an entry whose timestamp is already
recorded (here 100, in a database with no place rows at all) succeeds
and creates nothing: the duplicate check runs before place
resolution. -/
theorem c4_counterexample :
    processEntry { title := "x", url := exUrlA, timeUsec := 100 } exDbVisited =
      Except.ok exDbVisited ∧
    ¬hasPlaceUrl exDbVisited exUrlA.serialization := by
  decide

/-- C4 amended: the driver derives the display title (an empty title
maps to none) and passes it to the visit recorder; whenever the entry's
timestamp is not already present and its recording succeeds, place
resolution has run before the visit insert, so afterwards a place row
for the entry's exact URL exists, and when the URL was fresh the
created row stores the derived title.  (When the visit is deduplicated,
processing returns success without touching the database.) -/
theorem c4_amended_title_then_place (e : Entry) (db db' : Db)
    (hfresh : ¬hasVisitAt db e.timeUsec)
    (hok : insert_visit e.url (titleOf e) e.timeUsec db = Except.ok db') :
    processEntry e db = Except.ok db' ∧
    hasPlaceUrl db' e.url.serialization ∧
    ((∀ r ∈ db.places, r.url ≠ e.url.serialization) →
      ∃ r ∈ db'.places, r.url = e.url.serialization ∧ r.title = titleOf e) := by
  have hpe : processEntry e db = Except.ok db' := by
    unfold processEntry
    rw [hok]
  refine ⟨hpe, ?_, ?_⟩
  · rcases iv_ok_inv hok with ⟨hex, _⟩ | ⟨_, p, db1, hfp, hdb⟩
    · exact absurd (visit_exists_true_iff.mp hex) hfresh
    · subst hdb
      obtain ⟨r, hm, hu⟩ := foip_hasPlace hfp
      exact ⟨bumpPlace p e.timeUsec r, List.mem_map_of_mem _ hm,
        by rw [bumpPlace_url]; exact hu⟩
  · intro hno
    rcases iv_ok_inv hok with ⟨hex, _⟩ | ⟨_, p, db1, hfp, hdb⟩
    · exact absurd (visit_exists_true_iff.mp hex) hfresh
    · subst hdb
      have hlno : place_lookup e.url db = none :=
        place_lookup_none_iff.mpr (fun ⟨r, hm, hu⟩ => hno r hm hu)
      rcases foip_ok_inv hfp with ⟨r, hl, _, _⟩ |
        ⟨_, hh, uh, oid, db2, _, _, _, hp, hdb1⟩
      · rw [hl] at hlno
        cases hlno
      · subst hdb1
        refine ⟨bumpPlace p e.timeUsec
          (newPlaceRow db2.nextPlaceId e.url (titleOf e) (revHostOf hh)
            (db.guidPool.headD "") uh oid), ?_, ?_, ?_⟩
        · refine List.mem_map_of_mem _ ?_
          simp [List.mem_append]
        · rw [bumpPlace_url]
          rfl
        · rw [bumpPlace_title]
          rfl

theorem c4_amended_title_then_place_witness :
    processEntry { title := "t", url := exUrl, timeUsec := 50 } exDb =
      Except.ok exDbV ∧
    hasPlaceUrl exDbV exUrl.serialization ∧
    ((∀ r ∈ exDb.places, r.url ≠ exUrl.serialization) →
      ∃ r ∈ exDbV.places, r.url = exUrl.serialization ∧
        r.title = titleOf { title := "t", url := exUrl, timeUsec := 50 }) :=
  c4_amended_title_then_place { title := "t", url := exUrl, timeUsec := 50 }
    exDb exDbV (by decide) (by decide)

/-- C8: re-running the full import of the same entry sequence against
the state left by a prior complete run changes nothing: the second run
finishes on exactly the same database, so zero visit, place or origin
rows are added.  The hypothesis on serializations reflects that a
parsed URL is determined by its serialization (two url crate values
with equal serializations are equal), which the Url record does not
enforce by itself. -/
theorem c8_rerun_idempotent (entries : List Entry) (db0 db' : Db)
    (hinj : ∀ e1 ∈ entries, ∀ e2 ∈ entries,
      e1.url.serialization = e2.url.serialization → e1.url = e2.url)
    (h1 : runImport entries db0 = RunResult.finished db') :
    runImport entries db' = RunResult.finished db' := by
  have hc1 : runChunk entries db0 = Except.ok db' :=
    (runImport_finished_iff entries db0 db').mp h1
  have hP := runChunk_establishes hc1 hinj
  exact (runImport_finished_iff entries db' db').mpr (runChunk_rerun hP)

theorem c8_rerun_idempotent_witness :
    runImport [{ title := "t", url := exUrl, timeUsec := 8 },
               { title := "t2", url := exUrlA, timeUsec := 9 }] exDbRun =
      RunResult.finished exDbRun :=
  c8_rerun_idempotent
    [{ title := "t", url := exUrl, timeUsec := 8 },
     { title := "t2", url := exUrlA, timeUsec := 9 }]
    exDb exDbRun (by decide) (by decide)
